import Mathlib

/-!
Verification of the preprocessing pipeline contract (`sotodlib/preprocess/core.py`)
and the PCA / trend-removal engine (`sotodlib/tod_ops/pca.py`).

Python dictionaries are modelled as association lists with `List.lookup`
(the first binding for a key wins, matching dict semantics given that we only
ever insert a key that is absent).  A hook of the `_Preprocess` base class
either returns normally or raises `NotImplementedError`; this is modelled by
the `HookResult` sum type.  The global `PIPELINE` dict is passed explicitly as
a registry argument to `register`.
-/

/-- Outcome of invoking a `_Preprocess` hook: a normal return value, or a
raised `NotImplementedError`. -/
inductive HookResult (β : Type) where
  | ok (val : β)
  | notImplementedError
  deriving DecidableEq

/-- The `_Preprocess` base class: the four stored sub-configurations.
`α` is the type of configuration values. -/
structure Preprocess (α : Type) where
  process_cfgs : Option α
  calc_cfgs : Option α
  save_cfgs : Option α
  select_cfgs : Option α
  deriving DecidableEq

/-- `_Preprocess.__init__`: reads exactly the four hook keys of `step_cfgs`
with defaulting `dict.get` lookups. -/
def Preprocess.init {α : Type} (step_cfgs : List (String × α)) : Preprocess α :=
  ⟨step_cfgs.lookup "process", step_cfgs.lookup "calc",
   step_cfgs.lookup "save", step_cfgs.lookup "select"⟩

/-- `_Preprocess.process(aman, proc_aman)`: returns silently when
`process_cfgs is None`, otherwise raises `NotImplementedError`. -/
def Preprocess.process {α β γ : Type} (self : Preprocess α) (aman : β)
    (proc_aman : γ) : HookResult Unit :=
  match self.process_cfgs with
  | none => .ok ()
  | some _ => .notImplementedError

/-- `_Preprocess.calc_and_save(aman, proc_aman)`. -/
def Preprocess.calc_and_save {α β γ : Type} (self : Preprocess α) (aman : β)
    (proc_aman : γ) : HookResult Unit :=
  match self.calc_cfgs with
  | none => .ok ()
  | some _ => .notImplementedError

/-- `_Preprocess.save(proc_aman, *args)`. -/
def Preprocess.save {α γ δ : Type} (self : Preprocess α) (proc_aman : γ)
    (args : List δ) : HookResult Unit :=
  match self.save_cfgs with
  | none => .ok ()
  | some _ => .notImplementedError

/-- `_Preprocess.select(meta)`: returns `meta` unchanged when
`select_cfgs is None`, otherwise raises `NotImplementedError`. -/
def Preprocess.select {α ε : Type} (self : Preprocess α) (meta : ε) :
    HookResult ε :=
  match self.select_cfgs with
  | none => .ok meta
  | some _ => .notImplementedError

/-- `_Preprocess.register(name, process_class)`: inserts into the `PIPELINE`
dict only when `PIPELINE.get(name) is None`. -/
def Preprocess.register {α : Type} (name : String) (process_class : α)
    (PIPELINE : List (String × α)) : List (String × α) :=
  if (PIPELINE.lookup name).isNone then (name, process_class) :: PIPELINE
  else PIPELINE

/-- C1: for a stage built from a configuration mapping, each of the four hooks
is a silent no-op when its governing key ("process", "calc", "save", "select")
is absent (`select` returning `meta` unchanged), and raises
`NotImplementedError` when the key is present but no concrete stage overrides
the hook. -/
theorem preprocess_hook_contract {α β γ δ ε : Type} (cfg : List (String × α))
    (aman : β) (proc_aman : γ) (args : List δ) (meta : ε) :
    (cfg.lookup "process" = none →
      (Preprocess.init cfg).process aman proc_aman = HookResult.ok ()) ∧
    (cfg.lookup "process" ≠ none →
      (Preprocess.init cfg).process aman proc_aman =
        HookResult.notImplementedError) ∧
    (cfg.lookup "calc" = none →
      (Preprocess.init cfg).calc_and_save aman proc_aman = HookResult.ok ()) ∧
    (cfg.lookup "calc" ≠ none →
      (Preprocess.init cfg).calc_and_save aman proc_aman =
        HookResult.notImplementedError) ∧
    (cfg.lookup "save" = none →
      (Preprocess.init cfg).save proc_aman args = HookResult.ok ()) ∧
    (cfg.lookup "save" ≠ none →
      (Preprocess.init cfg).save proc_aman args =
        HookResult.notImplementedError) ∧
    (cfg.lookup "select" = none →
      (Preprocess.init cfg).select meta = HookResult.ok meta) ∧
    (cfg.lookup "select" ≠ none →
      (Preprocess.init cfg).select meta = HookResult.notImplementedError) := by
  refine ⟨?_, ?_, ?_, ?_, ?_, ?_, ?_, ?_⟩ <;> intro h
  · simp [Preprocess.process, Preprocess.init, h]
  · obtain ⟨v, hv⟩ := Option.ne_none_iff_exists'.mp h
    simp [Preprocess.process, Preprocess.init, hv]
  · simp [Preprocess.calc_and_save, Preprocess.init, h]
  · obtain ⟨v, hv⟩ := Option.ne_none_iff_exists'.mp h
    simp [Preprocess.calc_and_save, Preprocess.init, hv]
  · simp [Preprocess.save, Preprocess.init, h]
  · obtain ⟨v, hv⟩ := Option.ne_none_iff_exists'.mp h
    simp [Preprocess.save, Preprocess.init, hv]
  · simp [Preprocess.select, Preprocess.init, h]
  · obtain ⟨v, hv⟩ := Option.ne_none_iff_exists'.mp h
    simp [Preprocess.select, Preprocess.init, hv]

/-- Witness for C1 at a concrete configuration with only a "calc" key:
`process` silently no-ops, `calc_and_save` raises, `select` is the identity. -/
theorem preprocess_hook_contract_witness :
    (Preprocess.init [("name", 0), ("calc", 1)]).process 7 8 =
      HookResult.ok () ∧
    (Preprocess.init [("name", 0), ("calc", 1)]).calc_and_save 7 8 =
      HookResult.notImplementedError ∧
    (Preprocess.init [("name", 0), ("calc", 1)]).select 9 =
      HookResult.ok 9 :=
  ⟨(preprocess_hook_contract [("name", 0), ("calc", 1)] 7 8 ([] : List ℕ) 9).1
      (by decide),
   (preprocess_hook_contract [("name", 0), ("calc", 1)] 7 8 ([] : List ℕ)
      9).2.2.2.1 (by decide),
   (preprocess_hook_contract [("name", 0), ("calc", 1)] 7 8 ([] : List ℕ)
      9).2.2.2.2.2.2.1 (by decide)⟩

/-- C2: registering a name that is absent and then registering the same name
again leaves the registry resolving the name to the first implementation; the
second registration is a no-op, not an overwrite and not an error. -/
theorem register_first_wins {α : Type} (PIPELINE : List (String × α))
    (n : String) (A B : α) (h : PIPELINE.lookup n = none) :
    (Preprocess.register n B (Preprocess.register n A PIPELINE)).lookup n =
      some A ∧
    Preprocess.register n B (Preprocess.register n A PIPELINE) =
      Preprocess.register n A PIPELINE := by
  have h1 : Preprocess.register n A PIPELINE = (n, A) :: PIPELINE := by
    simp [Preprocess.register, h]
  have h2 : ((n, A) :: PIPELINE).lookup n = some A := by
    simp [List.lookup]
  rw [h1]
  constructor
  · rw [Preprocess.register, h2]
    simp [h2]
  · rw [Preprocess.register, h2]
    simp

/-- Witness for C2: two registrations of "foo" starting from the empty
registry resolve "foo" to the first implementation. -/
theorem register_first_wins_witness :
    (Preprocess.register "foo" 2
        (Preprocess.register "foo" 1 ([] : List (String × ℕ)))).lookup "foo" =
      some 1 :=
  (register_first_wins [] "foo" 1 2 (by decide)).1

/-- C10: `_Preprocess.__init__` reads only the four hook keys; any two
configuration mappings that agree on the defaulting lookups of "process",
"calc", "save" and "select" (regardless of a "name" key or extra keys)
construct equal stages, so all subsequent hook behavior coincides. -/
theorem preprocess_init_reads_only_hook_keys {α : Type}
    (cfg1 cfg2 : List (String × α))
    (hp : cfg1.lookup "process" = cfg2.lookup "process")
    (hc : cfg1.lookup "calc" = cfg2.lookup "calc")
    (hs : cfg1.lookup "save" = cfg2.lookup "save")
    (hsel : cfg1.lookup "select" = cfg2.lookup "select") :
    Preprocess.init cfg1 = Preprocess.init cfg2 := by
  simp [Preprocess.init, Preprocess.mk.injEq, hp, hc, hs, hsel]

/-- Witness for C10: a configuration with a "name" key and an unknown extra
key builds the same stage as the bare configuration it agrees with on the four
hook keys. -/
theorem preprocess_init_reads_only_hook_keys_witness :
    Preprocess.init [("name", 0), ("calc", 5), ("extra", 7)] =
      Preprocess.init [("calc", 5)] :=
  preprocess_init_reads_only_hook_keys [("name", 0), ("calc", 5), ("extra", 7)]
    [("calc", 5)] (by decide) (by decide) (by decide) (by decide)

/-!
The mode-decomposition engine (`sotodlib/tod_ops/pca.py`).

Signals are dets×samps rational matrices.  A PCA model, as returned by
`get_pca_model` or `get_trends`, carries `weights` (dets×eigen) and `modes`
(eigen×samps).  Python exceptions raised by `add_model` on a missing model
argument are modelled with `Except`.
-/

/-- A dets×samps signal array. -/
abbrev Signal (d s : ℕ) := Matrix (Fin d) (Fin s) ℚ

/-- The (dets, eigen, samps) AxisManager returned by `get_pca_model` and
`get_trends`: fields `weights` (dets×eigen) and `modes` (eigen×samps). -/
structure ModeModel (d k s : ℕ) where
  weights : Matrix (Fin d) (Fin k) ℚ
  modes : Matrix (Fin k) (Fin s) ℚ

/-- Python exceptions that the embedded functions can raise. -/
inductive PyErr where
  | attributeError
  deriving DecidableEq

/-- The per-detector accumulation loop of `add_model`: row `i` is skipped when
all its weights are zero, and otherwise receives
`signal[i] += np.dot(weights[i, :] * scale, modes)`. -/
def add_model_loop (d k s : ℕ) (weights : Matrix (Fin d) (Fin k) ℚ)
    (modes : Matrix (Fin k) (Fin s) ℚ) (scale : ℚ) (signal : Signal d s) :
    Signal d s :=
  fun i j =>
    if ∀ a, weights i a = 0 then signal i j
    else signal i j + ∑ a, (weights i a * scale) * modes a j

/-- `add_model(tod, model, scale, signal, modes, weights)`.  Defaults are
resolved in source order: `signal` from `tod.signal`, `modes` from
`model.modes`, `weights` from `model.weights`; the loop bound
`model.dets.count` is read from `model`.  Each access to an attribute of a
`None` model raises `AttributeError`. -/
def add_model (d k s : ℕ) (tod_signal : Signal d s)
    (model : Option (ModeModel d k s)) (scale : ℚ)
    (signal : Option (Signal d s)) (modes : Option (Matrix (Fin k) (Fin s) ℚ))
    (weights : Option (Matrix (Fin d) (Fin k) ℚ)) :
    Except PyErr (Signal d s) :=
  let sig := signal.getD tod_signal
  let mdE : Except PyErr (Matrix (Fin k) (Fin s) ℚ) :=
    match modes, model with
    | some md, _ => .ok md
    | none, some mo => .ok mo.modes
    | none, none => .error .attributeError
  let wE : Except PyErr (Matrix (Fin d) (Fin k) ℚ) :=
    match weights, model with
    | some w, _ => .ok w
    | none, some mo => .ok mo.weights
    | none, none => .error .attributeError
  match mdE, wE, model with
  | .ok md, .ok w, some _ => .ok (add_model_loop d k s w md scale sig)
  | .error e, _, _ => .error e
  | .ok _, .error e, _ => .error e
  | .ok _, .ok _, none => .error .attributeError

/-- When a model is supplied, `add_model` never raises: it returns the signal
produced by the accumulation loop, with defaults resolved from the model. -/
theorem add_model_some_eq (d k s : ℕ) (tod_signal : Signal d s)
    (m : ModeModel d k s) (scale : ℚ) (so : Option (Signal d s))
    (mo : Option (Matrix (Fin k) (Fin s) ℚ))
    (wo : Option (Matrix (Fin d) (Fin k) ℚ)) :
    add_model d k s tod_signal (some m) scale so mo wo =
      Except.ok (add_model_loop d k s (wo.getD m.weights) (mo.getD m.modes)
        scale (so.getD tod_signal)) := by
  cases mo <;> cases wo <;> rfl

/-- C5: with a model supplied, `add_model` returns the mutated signal, and
every detector row whose weights are not all zero receives exactly
`scale * (weights_row . modes)` added to the target signal row. -/
theorem add_model_accumulates_scaled_model (d k s : ℕ) (tod_signal : Signal d s)
    (m : ModeModel d k s) (scale : ℚ) (so : Option (Signal d s))
    (mo : Option (Matrix (Fin k) (Fin s) ℚ))
    (wo : Option (Matrix (Fin d) (Fin k) ℚ)) :
    add_model d k s tod_signal (some m) scale so mo wo =
      Except.ok (add_model_loop d k s (wo.getD m.weights) (mo.getD m.modes)
        scale (so.getD tod_signal)) ∧
    ∀ i, ¬ (∀ a, (wo.getD m.weights) i a = 0) → ∀ j,
      add_model_loop d k s (wo.getD m.weights) (mo.getD m.modes) scale
          (so.getD tod_signal) i j =
        (so.getD tod_signal) i j +
          scale * ∑ a, (wo.getD m.weights) i a * (mo.getD m.modes) a j := by
  refine ⟨add_model_some_eq d k s tod_signal m scale so mo wo, ?_⟩
  intro i hi j
  rw [add_model_loop, if_neg hi, Finset.mul_sum]
  congr 1
  apply Finset.sum_congr rfl
  intro a _
  ring

/-- Witness for C5 at a 1×1 model with weight 2, mode 3, scale 5 on signal 7:
the nonzero row receives 7 + 5 * (2 * 3). -/
theorem add_model_accumulates_scaled_model_witness :
    add_model 1 1 1 (fun _ _ => (7 : ℚ)) (some ⟨fun _ _ => 2, fun _ _ => 3⟩) 5
        none none none =
      Except.ok (add_model_loop 1 1 1 (fun _ _ => 2) (fun _ _ => 3) 5
        (fun _ _ => 7)) ∧
    add_model_loop 1 1 1 (fun _ _ => 2) (fun _ _ => 3) 5 (fun _ _ => 7) 0 0 =
      7 + 5 * ∑ a : Fin 1, 2 * 3 :=
  ⟨(add_model_accumulates_scaled_model 1 1 1 (fun _ _ => 7)
      ⟨fun _ _ => 2, fun _ _ => 3⟩ 5 none none none).1,
   (add_model_accumulates_scaled_model 1 1 1 (fun _ _ => 7)
      ⟨fun _ _ => 2, fun _ _ => 3⟩ 5 none none none).2 0
      (by intro h; exact absurd (h 0) (by norm_num)) 0⟩

/-- C6: a detector row whose weights are all exactly zero is skipped by
`add_model`: that row of the returned signal is unchanged, and every other
row is exactly what the accumulation loop assigns it, unaffected by the
skip. -/
theorem add_model_zero_row_skipped (d k s : ℕ) (tod_signal : Signal d s)
    (m : ModeModel d k s) (scale : ℚ) (so : Option (Signal d s))
    (mo : Option (Matrix (Fin k) (Fin s) ℚ))
    (wo : Option (Matrix (Fin d) (Fin k) ℚ)) (i : Fin d)
    (hz : ∀ a, (wo.getD m.weights) i a = 0) :
    ∀ out, add_model d k s tod_signal (some m) scale so mo wo =
        Except.ok out →
      (∀ j, out i j = (so.getD tod_signal) i j) ∧
      (∀ i2, i2 ≠ i → ∀ j, out i2 j =
        add_model_loop d k s (wo.getD m.weights) (mo.getD m.modes) scale
          (so.getD tod_signal) i2 j) := by
  intro out hout
  rw [add_model_some_eq] at hout
  obtain rfl : add_model_loop d k s (wo.getD m.weights) (mo.getD m.modes)
      scale (so.getD tod_signal) = out := by
    exact Except.ok.inj hout
  constructor
  · intro j
    rw [add_model_loop, if_pos hz]
  · intro i2 _ j
    rfl

/-- Witness for C6 at a 2-detector model whose first row of weights is zero:
row 0 of the output equals row 0 of the signal, while row 1 follows the
accumulation loop. -/
theorem add_model_zero_row_skipped_witness :
    (∀ j, add_model_loop 2 1 1 (fun i _ => if i = 0 then 0 else 2)
        (fun _ _ => 3) 5 (fun _ _ => 7) 0 j = (fun _ _ => (7 : ℚ)) 0 j) ∧
    (∀ i2, i2 ≠ (0 : Fin 2) → ∀ j,
      add_model_loop 2 1 1 (fun i _ => if i = 0 then 0 else 2) (fun _ _ => 3)
          5 (fun _ _ => 7) i2 j =
        add_model_loop 2 1 1 (fun i _ => if i = 0 then 0 else 2) (fun _ _ => 3)
          5 (fun _ _ => 7) i2 j) :=
  add_model_zero_row_skipped 2 1 1 (fun _ _ => 7)
    ⟨fun i _ => if i = 0 then 0 else 2, fun _ _ => 3⟩ 5 none none none 0
    (by intro a; norm_num)
    (add_model_loop 2 1 1 (fun i _ => if i = 0 then 0 else 2) (fun _ _ => 3) 5
      (fun _ _ => 7))
    (add_model_some_eq 2 1 1 (fun _ _ => 7)
      ⟨fun i _ => if i = 0 then 0 else 2, fun _ _ => 3⟩ 5 none none none)

/-- C7: running `add_model` with `scale = -1` and then, on the resulting
signal, with `scale = 1` (same model) restores the original signal exactly. -/
theorem add_model_scale_inverse (d k s : ℕ) (tod_signal : Signal d s)
    (m : ModeModel d k s) (sig : Signal d s) :
    (add_model d k s tod_signal (some m) (-1) (some sig) none none).bind
        (fun s1 => add_model d k s tod_signal (some m) 1 (some s1) none none) =
      Except.ok sig := by
  rw [add_model_some_eq]
  show Except.ok (add_model_loop d k s m.weights m.modes 1
      (add_model_loop d k s m.weights m.modes (-1) sig)) = Except.ok sig
  refine congrArg Except.ok ?_
  funext i j
  by_cases hz : ∀ a, m.weights i a = 0
  · simp only [add_model_loop, if_pos hz]
  · simp only [add_model_loop, if_neg hz]
    have hneg : ∑ a, (m.weights i a * -1) * m.modes a j =
        -∑ a, (m.weights i a * 1) * m.modes a j := by
      rw [← Finset.sum_neg_distrib]
      apply Finset.sum_congr rfl
      intro a _
      ring
    rw [hneg]
    ring

/-- C9: `add_model` with `model = None` raises `AttributeError` even when
both `weights` and `modes` are explicitly supplied, because the loop bound is
read from `model.dets.count`. -/
theorem add_model_none_attribute_error (d k s : ℕ) (tod_signal : Signal d s)
    (scale : ℚ) (so : Option (Signal d s)) (md : Matrix (Fin k) (Fin s) ℚ)
    (w : Matrix (Fin d) (Fin k) ℚ) :
    add_model d k s tod_signal none scale so (some md) (some w) =
      Except.error PyErr.attributeError := rfl

/-- `get_pca_model(tod, pca, n_modes, signal)`: with `R` the eigenvector
matrix of the PCA decomposition (its eigen axis has length `d`, the detector
count), takes `R[:, :n_modes]` as `weights` and `np.dot(R.T, signal)` of the
truncated matrix as `modes`.  `n_modes` defaults to `pca.eigen.count = d`;
the `min` models the clamping of the numpy column slice. -/
def pca_model_weights (d : ℕ) (n_modes : Option ℕ)
    (R : Matrix (Fin d) (Fin d) ℚ) :
    Matrix (Fin d) (Fin (min (n_modes.getD d) d)) ℚ :=
  fun i j => R i (Fin.castLE (min_le_right (n_modes.getD d) d) j)

/-- The model assembled by `get_pca_model`: the truncated `R` as `weights`
and `np.dot(R.T, signal)` as `modes`. -/
def get_pca_model (d s : ℕ) (R : Matrix (Fin d) (Fin d) ℚ)
    (n_modes : Option ℕ) (signal : Signal d s) :
    ModeModel d (min (n_modes.getD d) d) s :=
  ModeModel.mk (pca_model_weights d n_modes R)
    (Matrix.transpose (pca_model_weights d n_modes R) * signal)

/-- C4: for a requested mode count `k ≤ d`, `get_pca_model` returns a model
whose weights are exactly the first `k` columns of `R` (no renormalization)
and whose modes are the matrix product of the transpose of those columns with
the signal; an unspecified mode count defaults to the full channel count `d`,
the length of the eigen axis. -/
theorem get_pca_model_spec (d s k : ℕ) (R : Matrix (Fin d) (Fin d) ℚ)
    (signal : Signal d s) (hk : k ≤ d) :
    min k d = k ∧
    (∀ (i : Fin d) (j : Fin (min k d)),
      (get_pca_model d s R (some k) signal).weights i j =
        R i (Fin.castLE (min_le_right k d) j)) ∧
    (∀ j t, (get_pca_model d s R (some k) signal).modes j t =
      ∑ i, (get_pca_model d s R (some k) signal).weights i j * signal i t) ∧
    get_pca_model d s R none signal = get_pca_model d s R (some d) signal := by
  refine ⟨min_eq_left hk, fun i j => rfl, fun j t => ?_, rfl⟩
  show (Matrix.transpose (pca_model_weights d (some k) R) * signal) j t = _
  rw [Matrix.mul_apply]
  rfl

/-- Witness for C4 at d = 2, k = 1, s = 1: the truncated weights are the
first column of `R` and the mode is its product with the signal. -/
theorem get_pca_model_spec_witness :
    min 1 2 = 1 ∧
    (∀ (i : Fin 2) (j : Fin (min 1 2)),
      (get_pca_model 2 1 (fun i j => ((i : ℕ) + 2 * (j : ℕ) : ℚ)) (some 1)
          (fun _ _ => 3)).weights i j =
        (fun i j => ((i : ℕ) + 2 * (j : ℕ) : ℚ)) i
          (Fin.castLE (min_le_right 1 2) j)) ∧
    (∀ j t, (get_pca_model 2 1 (fun i j => ((i : ℕ) + 2 * (j : ℕ) : ℚ))
          (some 1) (fun _ _ => 3)).modes j t =
      ∑ i, (get_pca_model 2 1 (fun i j => ((i : ℕ) + 2 * (j : ℕ) : ℚ))
          (some 1) (fun _ _ => 3)).weights i j * (fun _ _ => (3 : ℚ)) i t) :=
  ⟨(get_pca_model_spec 2 1 1 (fun i j => ((i : ℕ) + 2 * (j : ℕ) : ℚ))
      (fun _ _ => 3) (by decide)).1,
   (get_pca_model_spec 2 1 1 (fun i j => ((i : ℕ) + 2 * (j : ℕ) : ℚ))
      (fun _ _ => 3) (by decide)).2.1,
   (get_pca_model_spec 2 1 1 (fun i j => ((i : ℕ) + 2 * (j : ℕ) : ℚ))
      (fun _ _ => 3) (by decide)).2.2.1⟩

/-- `np.linspace(a, b, n)` at index `i` (both endpoints included); for
`n = 1` numpy returns the single value `a`. -/
def linspace (a b : ℚ) (n : ℕ) (i : Fin n) : ℚ :=
  if n = 1 then a else a + ((i : ℕ) : ℚ) * (b - a) / ((n : ℚ) - 1)

/-- The fixed 2-mode basis of `get_trends`: row 0 is `np.ones`, row 1 is
`np.linspace(-0.5, 0.5, samps)`. -/
def trend_modes (s : ℕ) : Matrix (Fin 2) (Fin s) ℚ :=
  fun a j => if a = 0 then 1 else linspace (-(1/2)) (1/2) s j

/-- The effective window `size = max(1, min(size, signal.shape[1] // 2))` of
`get_trends`. -/
def trend_size (s size : ℕ) : ℕ := max 1 (min size (s / 2))

/-- The trend weights of `get_trends`: column 0 is `signal.mean(axis=1)`,
column 1 is `signal[:, -size:].mean(axis=1) - signal[:, :size].mean(axis=1)`
with the clamped window size. -/
def trend_weights (d s : ℕ) (size : ℕ) (signal : Signal d s) :
    Matrix (Fin d) (Fin 2) ℚ :=
  fun i a =>
    if a = 0 then (∑ j, signal i j) / (s : ℚ)
    else
      (Finset.sum (Finset.univ.filter
          (fun j : Fin s => s - trend_size s size ≤ (j : ℕ)))
          (fun j => signal i j)) / ((trend_size s size : ℕ) : ℚ) -
      (Finset.sum (Finset.univ.filter
          (fun j : Fin s => (j : ℕ) < trend_size s size))
          (fun j => signal i j)) / ((trend_size s size : ℕ) : ℚ)

/-- `get_trends(tod, remove, size, signal)`: builds the fixed 2-mode trend
model; when `remove` is set it also runs
`add_model(tod, trends, scale=-1, signal=signal)`, whose effect with a model
supplied is `add_model_loop` (see `add_model_some_eq`).  Returns the model
together with the final state of the signal array. -/
def get_trends (d s : ℕ) (remove : Bool) (size : ℕ) (signal : Signal d s) :
    ModeModel d 2 s × Signal d s :=
  if remove then
    (⟨trend_weights d s size signal, trend_modes s⟩,
      add_model_loop d 2 s (trend_weights d s size signal) (trend_modes s)
        (-1) signal)
  else (⟨trend_weights d s size signal, trend_modes s⟩, signal)

/-- C8: for a signal with at least one sample, `get_trends` returns the rank-2
model with mode 0 all ones, mode 1 the linear ramp from -0.5 to +0.5 (for at
least two samples), weight 0 the full-signal mean, and weight 1 the mean of
the last `sz` samples minus the mean of the first `sz` samples with
`sz = max(1, min(size, samps / 2))`; with `remove` set the model is
additionally subtracted from the signal with scale -1, and the returned model
does not depend on `remove`. -/
theorem get_trends_spec (d s : ℕ) (remove : Bool) (size : ℕ)
    (signal : Signal d s) (hs : 1 ≤ s) :
    (∀ j, (get_trends d s remove size signal).1.modes 0 j = 1) ∧
    (2 ≤ s → ∀ j, (get_trends d s remove size signal).1.modes 1 j =
      -(1/2) + ((j : ℕ) : ℚ) / ((s : ℚ) - 1)) ∧
    (∀ i, (get_trends d s remove size signal).1.weights i 0 =
      (∑ j, signal i j) / (s : ℚ)) ∧
    (∀ i, (get_trends d s remove size signal).1.weights i 1 =
      (Finset.sum (Finset.univ.filter
          (fun j : Fin s => s - max 1 (min size (s / 2)) ≤ (j : ℕ)))
          (fun j => signal i j)) / ((max 1 (min size (s / 2)) : ℕ) : ℚ) -
      (Finset.sum (Finset.univ.filter
          (fun j : Fin s => (j : ℕ) < max 1 (min size (s / 2))))
          (fun j => signal i j)) / ((max 1 (min size (s / 2)) : ℕ) : ℚ)) ∧
    (get_trends d s remove size signal).1 =
      (get_trends d s false size signal).1 ∧
    (get_trends d s true size signal).2 =
      add_model_loop d 2 s (get_trends d s false size signal).1.weights
        (get_trends d s false size signal).1.modes (-1) signal ∧
    (get_trends d s false size signal).2 = signal := by
  refine ⟨?_, ?_, ?_, ?_, ?_, ?_, ?_⟩
  · intro j
    cases remove <;> simp [get_trends, trend_modes]
  · intro h2 j
    have hne : s ≠ 1 := by omega
    cases remove <;>
      simp [get_trends, trend_modes, linspace, hne, Fin.ext_iff] <;> ring
  · intro i
    cases remove <;> simp [get_trends, trend_weights]
  · intro i
    cases remove <;>
      simp [get_trends, trend_weights, trend_size, Fin.ext_iff]
  · cases remove <;> rfl
  · rfl
  · rfl

/-- Witness for C8 at one detector, two samples, requested window size 100
(clamped to 1): concrete modes and weights of the trend model. -/
theorem get_trends_spec_witness :
    (∀ j, (get_trends 1 2 false 100
        (fun _ j => ((j : ℕ) : ℚ))).1.modes 0 j = 1) ∧
    (∀ j, (get_trends 1 2 false 100
        (fun _ j => ((j : ℕ) : ℚ))).1.modes 1 j =
      -(1/2) + ((j : ℕ) : ℚ) / (((2 : ℕ) : ℚ) - 1)) ∧
    (∀ i, (get_trends 1 2 false 100
        (fun _ j => ((j : ℕ) : ℚ))).1.weights i 0 =
      (∑ j : Fin 2, ((j : ℕ) : ℚ)) / ((2 : ℕ) : ℚ)) ∧
    (∀ i, (get_trends 1 2 false 100
        (fun _ j => ((j : ℕ) : ℚ))).1.weights i 1 =
      (Finset.sum (Finset.univ.filter
          (fun j : Fin 2 => 2 - max 1 (min 100 (2 / 2)) ≤ (j : ℕ)))
          (fun j => ((j : ℕ) : ℚ))) / ((max 1 (min 100 (2 / 2)) : ℕ) : ℚ) -
      (Finset.sum (Finset.univ.filter
          (fun j : Fin 2 => (j : ℕ) < max 1 (min 100 (2 / 2))))
          (fun j => ((j : ℕ) : ℚ))) / ((max 1 (min 100 (2 / 2)) : ℕ) : ℚ)) :=
  ⟨(get_trends_spec 1 2 false 100 (fun _ j => ((j : ℕ) : ℚ))
      (by norm_num)).1,
   (get_trends_spec 1 2 false 100 (fun _ j => ((j : ℕ) : ℚ))
      (by norm_num)).2.1 (by norm_num),
   (get_trends_spec 1 2 false 100 (fun _ j => ((j : ℕ) : ℚ))
      (by norm_num)).2.2.1,
   (get_trends_spec 1 2 false 100 (fun _ j => ((j : ℕ) : ℚ))
      (by norm_num)).2.2.2.1⟩

/-!
The eigenvalue post-processing of `get_pca`.  `np.linalg.eig` may return
complex and NaN entries; a scalar returned by the solver is modelled as a
pair of parts, each either NaN or a rational.  The eigenvector matrix is
represented by its list of columns, since the code reorders columns
(`R[:, idx]`).
-/

/-- A real scalar as produced by `np.linalg.eig`: NaN or an actual value. -/
inductive RVal where
  | nan
  | q (x : ℚ)
  deriving DecidableEq

/-- The rational value of a non-NaN `RVal`; the sort key of `np.argsort` is
applied only after NaN eigenvalues were replaced by 0, so the value chosen
for NaN is never reached there. -/
def RVal.toQ : RVal → ℚ
  | RVal.nan => 0
  | RVal.q x => x

/-- A complex scalar: real and imaginary part, each possibly NaN. -/
structure CNum where
  re : RVal
  im : RVal
  deriving DecidableEq

/-- `np.isnan` on a complex scalar: true when the real or the imaginary part
is NaN. -/
def CNum.isnan : CNum → Bool
  | ⟨RVal.nan, _⟩ => true
  | ⟨_, RVal.nan⟩ => true
  | _ => false

/-- `E[np.isnan(E)] = 0.`: a NaN eigenvalue is replaced by complex zero. -/
def nanToZero (c : CNum) : CNum :=
  if c.isnan then ⟨RVal.q 0, RVal.q 0⟩ else c

/-- `.real`: the real part of a complex scalar. -/
def CNum.real (c : CNum) : RVal := c.re

/-- `np.argsort(-E)` over keyed indices: the indices `0 .. n-1` reordered so
that their keys are non-increasing. -/
def argsortDesc (key : ℕ → ℚ) (n : ℕ) : List ℕ :=
  List.insertionSort (fun a b => key b ≤ key a) (List.range n)

/-- The eigen post-processing of `get_pca`: from the raw solver output `E`
(eigenvalues) and `R` (eigenvector matrix as a list of columns), replace NaN
eigenvalues by 0 (`E[np.isnan(E)] = 0.`), take real parts
(`E, R = E.real, R.real`), compute `idx = np.argsort(-E)` and return
`(E[idx], R[:, idx])`. -/
def get_pca_eig (E : List CNum) (R : List (List CNum)) :
    List RVal × List (List RVal) :=
  let E2 := (E.map nanToZero).map CNum.real
  let Rr := R.map (List.map CNum.real)
  let idx := argsortDesc (fun i => (E2.getD i RVal.nan).toQ) E.length
  (idx.map (fun i => E2.getD i RVal.nan), idx.map (fun i => Rr.getD i []))

/-- Zipping two lists of equal length is the range-indexed table of their
entries. -/
theorem zip_eq_range_map {α β : Type} (da : α) (db : β) :
    ∀ (l : List α) (m : List β), l.length = m.length →
      l.zip m = (List.range l.length).map (fun i => (l.getD i da, m.getD i db))
  | [], _, _ => rfl
  | a :: l, [], h => by simp at h
  | a :: l, b :: m, h => by
    have h' : l.length = m.length := by simpa using h
    simp only [List.length_cons, List.range_succ_eq_map, List.map_cons,
      List.map_map, List.zip_cons_cons, List.getD_cons_zero, Function.comp,
      List.getD_cons_succ]
    rw [zip_eq_range_map da db l m h']
    simp [Function.comp_def]

/-- `argsortDesc` returns a permutation of the index range. -/
theorem argsortDesc_perm (key : ℕ → ℚ) (n : ℕ) :
    List.Perm (argsortDesc key n) (List.range n) :=
  List.perm_insertionSort _ _

/-- Mapping an index function over `argsortDesc` yields a list that is
non-increasing under any valuation that agrees with the sort key. -/
theorem sorted_map_argsortDesc (key : ℕ → ℚ) (n : ℕ) {α : Type} (f : ℕ → α)
    (g : α → ℚ) (hfg : ∀ i, g (f i) = key i) :
    List.Sorted (fun a b : α => g b ≤ g a) ((argsortDesc key n).map f) := by
  have hins : List.Sorted (fun a b : ℕ => key b ≤ key a) (argsortDesc key n) := by
    haveI : IsTotal ℕ (fun a b : ℕ => key b ≤ key a) :=
      ⟨fun a b => le_total (key b) (key a)⟩
    haveI : IsTrans ℕ (fun a b : ℕ => key b ≤ key a) :=
      ⟨fun a b c hab hbc => le_trans hbc hab⟩
    exact List.sorted_insertionSort _ _
  refine List.Pairwise.map f ?_ hins
  intro a b hab
  rw [hfg a, hfg b]
  exact hab

/-- C3: `get_pca` first replaces every NaN eigenvalue with 0, then takes the
real part of eigenvalues and of every eigenvector entry unconditionally, and
returns the eigenvalues sorted in non-increasing order with the eigenvector
columns permuted by the same ordering, so that output column `i` corresponds
to output eigenvalue `i` (the output pairs are a permutation of the sanitized
input pairs). -/
theorem get_pca_eig_spec (E : List CNum) (R : List (List CNum))
    (hlen : R.length = E.length) :
    (∀ c : CNum, CNum.real (nanToZero c) =
      (if c.isnan then RVal.q 0 else c.re)) ∧
    List.Sorted (fun a b : RVal => RVal.toQ b ≤ RVal.toQ a)
      (get_pca_eig E R).1 ∧
    List.Perm ((get_pca_eig E R).1.zip (get_pca_eig E R).2)
      (((E.map nanToZero).map CNum.real).zip (R.map (List.map CNum.real))) := by
  refine ⟨?_, ?_, ?_⟩
  · intro c
    by_cases h : c.isnan
    · simp [nanToZero, CNum.real, h]
    · simp [nanToZero, CNum.real, h]
  · simp only [get_pca_eig]
    exact sorted_map_argsortDesc _ E.length
      (fun i => ((E.map nanToZero).map CNum.real).getD i RVal.nan) RVal.toQ
      (fun i => rfl)
  · simp only [get_pca_eig]
    rw [List.zip_map']
    have hperm := (argsortDesc_perm
      (fun i => (((E.map nanToZero).map CNum.real).getD i RVal.nan).toQ)
      E.length).map
      (fun i => (((E.map nanToZero).map CNum.real).getD i RVal.nan,
        (R.map (List.map CNum.real)).getD i ([] : List RVal)))
    refine hperm.trans ?_
    have hzip := zip_eq_range_map RVal.nan ([] : List RVal)
      ((E.map nanToZero).map CNum.real) (R.map (List.map CNum.real))
      (by simp [hlen])
    rw [hzip]
    have hlen2 : ((E.map nanToZero).map CNum.real).length = E.length := by simp
    rw [hlen2]

/-- Raw eigensolver output with one NaN eigenvalue and unsorted values. -/
def sampleE : List CNum :=
  [CNum.mk (RVal.q 1) (RVal.q 0), CNum.mk RVal.nan (RVal.q 0),
   CNum.mk (RVal.q 5) (RVal.q 2)]

/-- Eigenvector columns matching `sampleE`. -/
def sampleR : List (List CNum) :=
  [[CNum.mk (RVal.q 10) (RVal.q 1)], [CNum.mk (RVal.q 20) (RVal.q 0)],
   [CNum.mk (RVal.q 30) (RVal.q 0)]]

/-- Witness for C3 on a concrete solver output with a NaN eigenvalue and
out-of-order values. -/
theorem get_pca_eig_spec_witness :
    List.Sorted (fun a b : RVal => RVal.toQ b ≤ RVal.toQ a)
      (get_pca_eig sampleE sampleR).1 ∧
    List.Perm ((get_pca_eig sampleE sampleR).1.zip
        (get_pca_eig sampleE sampleR).2)
      (((sampleE.map nanToZero).map CNum.real).zip
        (sampleR.map (List.map CNum.real))) :=
  ⟨(get_pca_eig_spec sampleE sampleR rfl).2.1,
   (get_pca_eig_spec sampleE sampleR rfl).2.2⟩
